import Mathlib

/-!
# Verification of the nodejs-polars DataFrame wrapper (`polars/dataframe.ts`)

Shallow embedding of the TypeScript `_DataFrame` wrapper and of the parts of
the native engine the claims need.  Pure TS logic (argument normalisation,
dispatch, the Proxy handler) is translated directly from the source; native
(Rust) operations reached through `wrap`/`unwrap` are not part of the given
sources and are modelled from the spec where a claim depends on them (each
such definition says so in its doc comment).

Values are modelled by a small JS-value type; numbers are embedded as `Int`
(the claims never exercise fractional or overflow behaviour of doubles).
-/

/-- A JavaScript value stored in a column: null, a number, a string or a
boolean. -/
inductive JsVal where
  | vNull
  | vInt (n : Int)
  | vStr (s : String)
  | vBool (b : Bool)
  deriving DecidableEq, Repr

/-- Data type tag of a Series (the `DataType` variants the claims touch). -/
inductive DType where
  | int64
  | float64
  | utf8
  | boolean
  deriving DecidableEq, Repr

/-- A Series: a named, typed column of values (`Series` of the data model). -/
structure SeriesM where
  name : String
  dtype : DType
  values : List JsVal
  deriving DecidableEq, Repr

/-- A DataFrame: an ordered collection of Series (`_df`, the native handle the
TS wrapper closes over). -/
structure DFrame where
  columns : List SeriesM
  deriving DecidableEq, Repr

namespace DFrame

/-- `_df.height`: length of the first column (0 for an empty frame). -/
def getHeight (df : DFrame) : Nat :=
  match df.columns with
  | [] => 0
  | c :: _ => c.values.length

/-- `_df.columns`: the list of column names, in column order. -/
def names (df : DFrame) : List String :=
  df.columns.map (·.name)

/-- `_df.width`: the number of columns. -/
def width (df : DFrame) : Nat :=
  df.columns.length

end DFrame

/-! ## head / limit (claim C9) -/

/-- Modelled from the spec: the native `head` keeps the first `length` rows of
every column (row-transforming, returns a new frame). -/
def nativeHead (df : DFrame) (length : Nat) : DFrame :=
  ⟨df.columns.map (fun c => { c with values := c.values.take length })⟩

/-- `head(length = 5)` from the source: `wrap("head", length)`; `none` models a
call without the argument, which takes the default `5`. -/
def ts_head (df : DFrame) (length : Option Nat) : DFrame :=
  nativeHead df (length.getD 5)

/-- `limit: (length = 5) => wrap("head", length)` from the source. -/
def ts_limit (df : DFrame) (length : Option Nat) : DFrame :=
  nativeHead df (length.getD 5)

/-! ## schema (claim C4) -/

/-- Decimal digits read as a natural number; `none` on an empty list or any
non-digit character. -/
def digitsToNat? (cs : List Char) : Option Nat :=
  match cs with
  | [] => none
  | _ =>
      cs.foldl
        (fun acc c =>
          acc.bind fun n =>
            if c.isDigit then some (n * 10 + (c.toNat - 48)) else none)
        (some 0)

/-- JS object property assignment `acc[k] = v` on the own-property store: an
existing key is updated in place, a new key is appended.  The store keeps
keys in insertion order; the observable enumeration order is defined
separately by `jsObjEnum`. -/
def objInsert (acc : List (String × DType)) (k : String) (v : DType) :
    List (String × DType) :=
  if acc.any (fun p => p.1 = k) then
    acc.map (fun p => if p.1 = k then (k, v) else p)
  else acc ++ [(k, v)]

/-- Whether a string is a JS array index: the canonical decimal form (no
leading zero except `"0"` itself) of a natural number below `2^32 - 1`.
Such property keys enumerate before all other string keys. -/
def isArrayIndex (s : String) : Bool :=
  match s.toList with
  | [] => false
  | c :: cs =>
      (c :: cs).all (·.isDigit) &&
        (if c = '0' then cs.isEmpty else true) &&
        decide ((digitsToNat? (c :: cs)).getD 0 < 4294967295)

/-- Numeric value of an array-index key (0 on non-index keys). -/
def arrIdxVal (s : String) : Nat :=
  (digitsToNat? s.toList).getD 0

instance : DecidableRel
    (fun (p q : String × DType) => arrIdxVal p.1 ≤ arrIdxVal q.1) :=
  fun _ _ => Nat.decLe _ _

/-- The observable enumeration order of a plain JS object's string-keyed
properties (`Object.keys`, `for…in`, `Object.entries`): array-index keys
first, in ascending numeric order, then the remaining keys in insertion
order. -/
def jsObjEnum (props : List (String × DType)) : List (String × DType) :=
  List.insertionSort (fun p q => arrIdxVal p.1 ≤ arrIdxVal q.1)
      (props.filter (fun p => isArrayIndex p.1)) ++
    props.filter (fun p => !(isArrayIndex p.1))

/-- The own-property store the `schema` getter builds on each access:
`getColumns().reduce((acc, curr) => { acc[curr.name] = curr.dtype; return acc }, {})`. -/
def schemaStore (df : DFrame) : List (String × DType) :=
  df.columns.foldl (fun acc s => objInsert acc s.name s.dtype) []

/-- The `schema` getter from the source, observed through JS property
enumeration: the store's entries in enumeration order. -/
def schemaOf (df : DFrame) : List (String × DType) :=
  jsObjEnum (schemaStore df)

/-! ## In-place column mutators (claims C2, C4)

A method call on the wrapper is embedded as a function returning the pair
`(receiver state after the call, returned value)`; the in-place native calls
(`insertAtIdx`, `replaceAtIdx`) change the receiver state, all others leave
it untouched. -/

/-- Modelled from the spec: the native in-place `insertAtIdx` splices the
series into the column list at the index (its length check is native and not
needed by the claims). -/
def nativeInsertAtIdx (df : DFrame) (idx : Nat) (s : SeriesM) : DFrame :=
  ⟨df.columns.take idx ++ s :: df.columns.drop idx⟩

/-- `insertAtIdx(idx, series)` from the source: mutates `_df` in place and
returns nothing. -/
def ts_insertAtIdx (df : DFrame) (idx : Nat) (s : SeriesM) : DFrame × Unit :=
  (nativeInsertAtIdx df idx s, ())

/-- Modelled from the spec: the native in-place `replaceAtIdx` replaces the
column at the index. -/
def nativeReplaceAtIdx (df : DFrame) (idx : Nat) (s : SeriesM) : DFrame :=
  ⟨df.columns.set idx s⟩

/-- `replaceAtIdx(index, newColumn)` from the source: mutates `_df` in place
and returns `this`. -/
def ts_replaceAtIdx (df : DFrame) (idx : Nat) (s : SeriesM) : DFrame × DFrame :=
  (nativeReplaceAtIdx df idx s, nativeReplaceAtIdx df idx s)

/-! ## join (claim C1) -/

/-- Error kinds surfaced by the join path (spec taxonomy kinds, not concrete
JS error classes; the TS-level `TypeError("You should pass the column to join
on as an argument.")` is of the `MissingJoinKey` kind). -/
inductive JoinError where
  | missingJoinKey
  | keyCountMismatch
  deriving DecidableEq, Repr

/-- Options object of `join` (the `suffix` field is forwarded opaquely to the
native call and is omitted).  `none` models an absent (`undefined`) field;
key fields are taken already normalised to string lists, which is what the
`columnOrColumns` utility produces. -/
structure JoinOptions where
  how : Option String := none
  «on» : Option (List String) := none
  leftOn : Option (List String) := none
  rightOn : Option (List String) := none
  deriving DecidableEq, Repr

/-- Modelled from the spec: `columnOrColumns` (a utility not in the given
sources) normalises an optional string-or-list argument to an optional list
of column names and maps `undefined` to `undefined`. -/
def columnOrColumnsM (x : Option (List String)) : Option (List String) := x

/-- Outcome of a successful native join call. -/
inductive JoinOut where
  /-- `cross`: the full Cartesian product of row indices, no key columns. -/
  | cross (pairs : List (Nat × Nat))
  /-- An equality join whose key lists passed validation; the match emission
  itself is native and not needed by the claims, so it stays abstract. -/
  | keyed (leftOn rightOn : List String) (how : String)
  deriving DecidableEq, Repr

/-- All `(i, j)` index pairs of a Cartesian product of `m` left and `n` right
rows, left-major. -/
def allPairs (m n : Nat) : List (Nat × Nat) :=
  (List.range m).flatMap (fun i => (List.range n).map (fun j => (i, j)))

/-- Modelled from the spec: the native join engine validates the key lists —
`MissingJoinKey` if a side's keys are absent (or no key at all is given),
`KeyCountMismatch` if the two lists differ in arity — and `cross` emits the
full Cartesian product with no key columns. -/
def nativeJoin (l r : DFrame) (leftOn rightOn : Option (List String))
    (how : String) : Except JoinError JoinOut :=
  if how = "cross" then .ok (.cross (allPairs l.getHeight r.getHeight))
  else
    match leftOn, rightOn with
    | some lk, some rk =>
        if lk.length ≠ rk.length then .error .keyCountMismatch
        else if lk.isEmpty then .error .missingJoinKey
        else .ok (.keyed lk rk how)
    | _, _ => .error .missingJoinKey

/-- `join(other, options)` from the source: defaults `how` to `"inner"`,
routes `how === "cross"` to the native call with empty key lists before any
key handling, substitutes `on` for both sides when supplied (a JS array is
truthy even when empty, hence `isSome`), throws the TS `TypeError` when
exactly one of `leftOn`/`rightOn` is present, and otherwise forwards to the
native join. -/
def ts_join (l r : DFrame) (options : JoinOptions) : Except JoinError JoinOut :=
  let how := options.how.getD "inner"
  let onKeys := columnOrColumnsM options.«on»
  if how = "cross" then nativeJoin l r (some []) (some []) how
  else
    let leftOn0 := columnOrColumnsM options.leftOn
    let rightOn0 := columnOrColumnsM options.rightOn
    let leftOn := if onKeys.isSome then onKeys else leftOn0
    let rightOn := if onKeys.isSome then onKeys else rightOn0
    if (leftOn.isSome ∧ ¬ rightOn.isSome) ∨ (rightOn.isSome ∧ ¬ leftOn.isSome) then
      .error .missingJoinKey
    else nativeJoin l r leftOn rightOn how

/-! ## clone / rename / drop (claim C2) -/

/-- The native `clone`: a cheap copy; at the logical level the same frame. -/
def nativeClone (df : DFrame) : DFrame := df

/-- Modelled from the spec: the native in-place `rename(column, new_col)`
gives the column named `column` the new name (well-formed frames have
pairwise-distinct names). -/
def nativeRename (df : DFrame) (column newCol : String) : DFrame :=
  ⟨df.columns.map (fun s => if s.name = column then { s with name := newCol } else s)⟩

/-- `rename(mapping)` from the source: clones the receiver, renames the
columns of the clone in place, and returns the clone — the receiver itself is
untouched. -/
def ts_rename (df : DFrame) (mapping : List (String × String)) : DFrame × DFrame :=
  (df, mapping.foldl (fun acc p => nativeRename acc p.1 p.2) (nativeClone df))

/-- Modelled from the spec: the native `drop`/`dropInPlace` removes the column
of that name from the column list. -/
def nativeDrop (df : DFrame) (name : String) : DFrame :=
  ⟨df.columns.filter (fun s => s.name ≠ name)⟩

/-- `drop(...names)` from the source: a single non-array argument goes through
`wrap("drop", names[0])` (a new frame); otherwise the receiver is cloned and
each flattened name is dropped in place on the clone.  Either way the
receiver is untouched. -/
def ts_drop (df : DFrame) (args : List (String ⊕ List String)) : DFrame × DFrame :=
  match args with
  | [Sum.inl name] => (df, nativeDrop df name)
  | _ =>
      let flat := args.flatMap (fun a => match a with | .inl s => [s] | .inr l => l)
      (df, flat.foldl (fun acc n => nativeDrop acc n) (nativeClone df))

/-! ## Row-transforming operations as receiver/result pairs (claim C2) -/

/-- `filter(predicate)` from the source: runs the opaque predicate evaluator
(spec: `evaluate(DataFrame) → Series` boolean mask) through the lazy engine
and keeps the mask-true rows; the receiver is untouched. -/
def ts_filter (df : DFrame) (pred : DFrame → List Bool) : DFrame × DFrame :=
  let mask := pred df
  (df, ⟨df.columns.map (fun c =>
    { c with
      values := (c.values.zip mask).filterMap fun p =>
        if p.2 then some p.1 else none })⟩)

/-- The GroupBy handle of the data model: `{source, keys}`, lazily evaluated. -/
structure GroupByHandle where
  source : DFrame
  keys : List String
  deriving DecidableEq, Repr

/-- `groupBy(...by)` from the source: builds a `_GroupBy` handle over `_df`
and the normalised key names; no partitioning work, no mutation. -/
def ts_groupBy (df : DFrame) (by_ : List String) : DFrame × GroupByHandle :=
  (df, ⟨df, by_⟩)

/-! ## sort (claims C2, C3) -/

/-- First argument of `sort`: the `{by, descending, maintain_order}` options
object, a plain column-name string, or an array of column names (an `Expr`
argument follows the array path and is not needed by the claims).  `none`
fields model absent (`undefined`) object members. -/
inductive SortArg where
  | opts (by_ : String) (descending : Option Bool) (maintainOrder : Option Bool)
  | str (by_ : String) (descending : Bool) (maintainOrder : Bool)
  | arr (by_ : List String) (descending : Bool) (maintainOrder : Bool)
  deriving DecidableEq, Repr

/-- The native/lazy call a `sort` invocation produces: `wrap("sort", by,
descending, true, maintain_order)` (third native argument is the constant
nulls-last flag) or the lazy-engine `sort(by, descending, maintain_order)`. -/
inductive SortCall where
  | native (by_ : String) (descending : Bool) (nullsLast : Bool) (maintainOrder : Bool)
  | lazy (by_ : List String) (descending : Bool) (maintainOrder : Bool)
  deriving DecidableEq, Repr

/-- `sort(arg, descending = false, maintain_order = false)` from the source:
an options object recurses as `this.sort(arg.by, arg.descending)` — passing
only `by` and `descending`, so `maintain_order` falls back to its default
`false`; an array goes through the lazy engine; a string goes through
`wrap("sort", arg, descending, true, maintain_order)`.  The options object
is `{by: string}`-shaped here, so the recursion lands in the string branch. -/
def sortCallArgs (arg : SortArg) : SortCall :=
  match arg with
  | .opts by_ descending _ => sortCallArgs (.str by_ (descending.getD false) false)
  | .str by_ descending maintainOrder => .native by_ descending true maintainOrder
  | .arr by_ descending maintainOrder => .lazy by_ descending maintainOrder
termination_by match arg with | .opts _ _ _ => 1 | _ => 0

/-- Comparison the stable sort engine uses on row indices: strictly smaller
key first (reversed when descending), ties broken by original index. -/
def sortRel (key : Nat → Int) (descending : Bool) (i j : Nat) : Prop :=
  (if descending then key j < key i else key i < key j) ∨ (key i = key j ∧ i ≤ j)

instance (key : Nat → Int) (descending : Bool) :
    DecidableRel (sortRel key descending) := fun _ _ => by
  unfold sortRel; infer_instance

instance (key : Nat → Int) (descending : Bool) :
    IsTotal Nat (sortRel key descending) where
  total i j := by
    unfold sortRel
    rcases lt_trichotomy (key i) (key j) with h | h | h
    · cases descending <;> simp [h, le_of_lt h]
    · rcases Nat.le_total i j with hij | hij
      · exact Or.inl (Or.inr ⟨h, hij⟩)
      · exact Or.inr (Or.inr ⟨h.symm, hij⟩)
    · cases descending <;> simp [h, le_of_lt h]

instance (key : Nat → Int) (descending : Bool) :
    IsTrans Nat (sortRel key descending) where
  trans i j k hij hjk := by
    unfold sortRel at *
    cases descending <;> simp at * <;>
      rcases hij with h1 | ⟨e1, l1⟩ <;> rcases hjk with h2 | ⟨e2, l2⟩ <;> omega

/-- Modelled from the spec: the stable (`maintain_order`) sort engine —
"computes a permutation of row indices using lexicographic comparison …;
ties are broken by original row order when `stable` is requested".  Embedded
as an insertion sort of the row indices under `sortRel`. -/
def stableSortIdx (key : Nat → Int) (descending : Bool) (n : Nat) : List Nat :=
  List.insertionSort (sortRel key descending) (List.range n)

/-! ## pivot aggregate resolution (claims C2, C5) -/

/-- The eight aggregation expressions the `pivot` lookup table maps aggregate
names to (`element().first()`, `element().sum()`, …). -/
inductive PivotAgg where
  | first
  | sum
  | max
  | min
  | mean
  | median
  | last
  | count
  deriving DecidableEq, Repr

/-- The `aggregateFunc` argument: an opaque expression or a string name. -/
inductive AggSpec where
  | expr (tag : String)
  | str (s : String)
  deriving DecidableEq, Repr

/-- What ends up as the `fn` argument of the native `pivotExpr` call. -/
inductive ResolvedAgg where
  /-- `aggregateFunc` was already an `Expr` and is used as-is. -/
  | custom (tag : String)
  /-- One of the eight known names, resolved through the lookup table. -/
  | agg (a : PivotAgg)
  /-- A member inherited from `Object.prototype` (e.g. `"toString"`): the JS
  lookup `{first: …, …}[aggregateFunc]` finds the inherited member, which is
  not `undefined`, so `?? new Error(…)` never triggers and the non-`Error`,
  non-aggregate value is passed on to the native call. -/
  | protoPassthrough (s : String)
  deriving DecidableEq, Repr

/-- The own properties of `Object.prototype` reachable by a string-keyed
lookup on a plain object literal. -/
def objectPrototypeKeys : List String :=
  ["constructor", "hasOwnProperty", "isPrototypeOf", "propertyIsEnumerable",
   "toLocaleString", "toString", "valueOf",
   "__defineGetter__", "__defineSetter__", "__lookupGetter__",
   "__lookupSetter__", "__proto__"]

/-- The lookup table of `pivot` (`{first: element().first(), sum: …, …}`)
read with JS bracket access, which consults the prototype chain on a miss. -/
def aggTableLookup (s : String) : Option ResolvedAgg :=
  if s = "first" then some (.agg .first)
  else if s = "sum" then some (.agg .sum)
  else if s = "max" then some (.agg .max)
  else if s = "min" then some (.agg .min)
  else if s = "mean" then some (.agg .mean)
  else if s = "median" then some (.agg .median)
  else if s = "last" then some (.agg .last)
  else if s = "count" then some (.agg .count)
  else if s ∈ objectPrototypeKeys then some (.protoPassthrough s)
  else none

/-- The `aggregateFunc` handling of `pivot` from the source: an `Expr` is used
as-is; otherwise `fn = {first: …, …}[aggregateFunc] ?? new Error(...)` and the
`Error` is thrown only when the bracket lookup produced `undefined`. -/
def resolveAggregate (a : AggSpec) : Except String ResolvedAgg :=
  match a with
  | .expr tag => .ok (.custom tag)
  | .str s =>
      match aggTableLookup s with
      | some fn => .ok fn
      | none => .error ("Unknown aggregate function " ++ s)

/-- Arguments of the native `pivotExpr` call (`maintainOrder`, `sortColumns`
and `separator` are forwarded opaquely and omitted). -/
structure PivotCall where
  values : List String
  index : List String
  columns : List String
  fn : ResolvedAgg
  deriving DecidableEq, Repr

/-- `pivot(values, options)` from the source: normalises `values`/`index`/
`columns` from a single string to a one-element array, resolves
`aggregateFunc` (default `"first"`), and calls the native `pivotExpr`; the
receiver is untouched, the first component is its state after the call. -/
def ts_pivot (df : DFrame) (values index columns : List String)
    (aggregateFunc : Option AggSpec) : DFrame × Except String PivotCall :=
  (df,
    match resolveAggregate (aggregateFunc.getD (.str "first")) with
    | .error e => .error e
    | .ok fn => .ok ⟨values, index, columns, fn⟩)

/-! ## sample (claim C6) -/

/-- The first (`opts`) argument of `sample`: a number `n`, or an options
object with optional `n`, `frac`, `withReplacement`, `seed` members.  `frac`
values are embedded as rationals. -/
inductive SampleOpt where
  | num (n : Int)
  | obj (n : Option Int) (frac : Option ℚ) (withReplacement : Option Bool)
      (seed : Option Int)
  deriving DecidableEq, Repr

/-- The native call a successful `sample` produces: `sampleN` with a row
count or `sampleFrac` with a fraction (plus replacement flag and seed). -/
inductive SampleCall where
  | sampleN (n : Int) (withReplacement : Bool) (seed : Option Int)
  | sampleFrac (frac : ℚ) (withReplacement : Bool) (seed : Option Int)
  deriving DecidableEq, Repr

/-- An invocation of `sample(opts?, frac?, withReplacement = false, seed?)`:
JS distinguishes a zero-argument call (`arguments.length === 0`) from a call
passing `undefined`s, so the argument list is modelled explicitly. -/
inductive SampleArgs where
  | noArgs
  | withArgs (opts : Option SampleOpt) (frac : Option ℚ) (withReplacement : Bool)
      (seed : Option Int)
  deriving DecidableEq, Repr

/-- `sample` from the source, branch for branch: a zero-argument call takes
the `sampleN` path with `Series("", [1])`; `opts.n`/`opts.frac` recurse as
`this.sample(opts.n, opts.frac, opts.withReplacement, seed)` (so the object's
`seed` member is ignored and `withReplacement` falls back to the parameter
default `false` when absent); a numeric `opts` is `sampleN`; a numeric `frac`
parameter is `sampleFrac`; anything else throws the `TypeError`. -/
def ts_sample (args : SampleArgs) : Except String SampleCall :=
  match args with
  | .noArgs => .ok (.sampleN 1 false none)
  | .withArgs opts frac wr seed =>
      match opts with
      | some (.obj (some n) _ w _) => .ok (.sampleN n (w.getD false) seed)
      | some (.obj none (some f) w _) => .ok (.sampleFrac f (w.getD false) seed)
      | some (.num n) => .ok (.sampleN n wr seed)
      | _ =>
          match frac with
          | some f => .ok (.sampleFrac f wr seed)
          | none => .error ("must specify either " ++ "frac or n")

/-! ## transpose (claim C7) -/

/-- The `columnNames` option of `transpose`: an array, or any other iterable
(e.g. a generator), modelled by the finite sequence of names it yields. -/
inductive ColumnNamesArg where
  | arr (l : List String)
  | gen (l : List String)
  deriving DecidableEq, Repr

/-- Options object of `transpose`. -/
structure TransposeOptions where
  includeHeader : Option Bool := none
  headerName : Option String := none
  columnNames : Option ColumnNamesArg := none
  deriving DecidableEq, Repr

/-- Arguments of the native `transpose(keep_names_as, column_names)` call. -/
structure TransposeCall where
  keepNamesAs : Option String
  columnNames : Option (List String)
  deriving DecidableEq, Repr

/-- `takeNItems(iterable, n)` from the source: collects at most `n` items
from the iterable. -/
def takeNItems (l : List String) (n : Nat) : List String :=
  l.take n

/-- `transpose(options?)` from the source: `keep_names_as` is the header name
when `includeHeader` is set; an array `columnNames` is cut by
`slice(0, this.height)`, any other iterable by `takeNItems(·, this.height)`;
the result is handed to the native `transpose`. -/
def ts_transpose (df : DFrame) (options : Option TransposeOptions) : TransposeCall :=
  let includeHeader := (options.bind (·.includeHeader)).getD false
  let headerName := (options.bind (·.headerName)).getD "column"
  let keepNamesAs := if includeHeader then some headerName else none
  match options.bind (·.columnNames) with
  | none => ⟨keepNamesAs, none⟩
  | some (.arr l) => ⟨keepNamesAs, some (l.take df.getHeight)⟩
  | some (.gen l) => ⟨keepNamesAs, some (takeNItems l df.getHeight)⟩

/-! ## unique (claims C2 context, C8) -/

/-- First-occurrence deduplication by key, with the set of already-seen keys
made explicit. -/
def dedupFirstAux {α κ : Type} [DecidableEq κ] (f : α → κ) :
    List α → List κ → List α
  | [], _ => []
  | x :: xs, seen =>
      if f x ∈ seen then dedupFirstAux f xs seen
      else x :: dedupFirstAux f xs (f x :: seen)

/-- Keep the first row of every key-equality group, in first-occurrence
order. -/
def dedupFirst {α κ : Type} [DecidableEq κ] (f : α → κ) (l : List α) : List α :=
  dedupFirstAux f l []

/-- The logical rows of a frame: row `i` collects entry `i` of every column
(missing entries, which a well-formed frame does not have, read as null). -/
def rowsOf (df : DFrame) : List (List JsVal) :=
  (List.range df.getHeight).map
    (fun i => df.columns.map (fun c => c.values.getD i .vNull))

/-- Column indices selected by an optional `subset` of column names (default:
all columns). -/
def colIdxs (df : DFrame) (subset : Option (List String)) : List Nat :=
  match subset with
  | none => List.range df.width
  | some sel => sel.filterMap (fun n => df.names.indexOf? n)

/-- Projection of a row onto a list of column indices (the dedup key). -/
def projRow (idxs : List Nat) (r : List JsVal) : List JsVal :=
  idxs.map (fun j => r.getD j .vNull)

/-- Column `j` of a list of rows. -/
def colOfRows (rs : List (List JsVal)) (j : Nat) : List JsVal :=
  rs.map (fun r => r.getD j .vNull)

/-- Rebuild the column list from a list of rows, keeping each column's name
and dtype (`j` is the index of the first column). -/
def rebuildAux (rs : List (List JsVal)) : List SeriesM → Nat → List SeriesM
  | [], _ => []
  | c :: cs, j => { c with values := colOfRows rs j } :: rebuildAux rs cs (j + 1)

/-- Rebuild a frame with the same column names and dtypes from a list of
rows. -/
def rebuild (df : DFrame) (rs : List (List JsVal)) : DFrame :=
  ⟨rebuildAux rs df.columns 0⟩

/-- Modelled from the spec: the native `unique(maintainOrder, subset, keep)`
with `keep = "first"` — "groups rows by equality over `subset` (default: all
columns) and retains one representative per group", the first one; survivors
are kept in first-occurrence order (the order the non-`maintainOrder` default
leaves unspecified is modelled by this admissible choice). -/
def nativeUnique (df : DFrame) (subset : Option (List String)) : DFrame :=
  rebuild df (dedupFirst (projRow (colIdxs df subset)) (rowsOf df))

/-- `unique(opts, subset, keep)` from the source with `keep = "first"`: both
the boolean-`opts` path and the options-object path end in
`wrap("unique", maintainOrder, subset, keep)` on the native frame. -/
def ts_unique (df : DFrame) (subset : Option (List String)) : DFrame :=
  nativeUnique df subset

/-! ## The `_DataFrame` Proxy handler (claim C10) -/

/-- A property key arriving at a Proxy trap: a string, or a symbol. -/
inductive PropKey where
  | str (s : String)
  | sym
  deriving DecidableEq, Repr

/-- What the Proxy `get` trap returns: a column Series, a materialised row,
or ordinary property lookup (`Reflect.get`). -/
inductive GetResult where
  | column (s : Option SeriesM)
  | row (r : List JsVal)
  | reflect
  deriving DecidableEq, Repr

/-- The host-language `Number(prop)` conversion on its integer fragment: the
empty string converts to 0, an optional-minus decimal numeral parses, and
other strings used by the claims are NaN (`none`). -/
def jsNumber (s : String) : Option Int :=
  match s.toList with
  | [] => some 0
  | '-' :: rest => (digitsToNat? rest).map (fun n => -(n : Int))
  | cs => (digitsToNat? cs).map (fun n => (n : Int))

/-- The native `column(name)` lookup underlying `getColumn`. -/
def nativeColumn (df : DFrame) (name : String) : Option SeriesM :=
  df.columns.find? (fun s => s.name = name)

/-- `getColumn(name)` from the source: `_Series(_df.column(name))`. -/
def ts_getColumn (df : DFrame) (name : String) : Option SeriesM :=
  nativeColumn df name

/-- Modelled from the spec: the native `toRow(i)` materialises row `i` across
the columns (row-major access; out-of-range indices are not exercised by the
claims). -/
def nativeToRow (df : DFrame) (n : Int) : List JsVal :=
  df.columns.map (fun c => c.values.getD n.toNat .vNull)

/-- The Proxy `get` trap from the source, branch for branch: a string
property among the column names yields `getColumn(prop)`; otherwise a
non-symbol property with `!Number.isNaN(Number(prop))` yields
`row(Number(prop))`; everything else falls through to `Reflect.get`. -/
def proxyGet (df : DFrame) (p : PropKey) : GetResult :=
  match p with
  | .sym => .reflect
  | .str s =>
      if s ∈ df.names then .column (ts_getColumn df s)
      else
        match jsNumber s with
        | some n => .row (nativeToRow df n)
        | none => .reflect

/-- The Proxy `ownKeys` trap from the source: `target.columns`. -/
def proxyOwnKeys (df : DFrame) : List String :=
  df.names

/-- `sort` as a wrapper method call: receiver state and produced engine
call (the method never assigns to `_df`). -/
def ts_sortCall (df : DFrame) (arg : SortArg) : DFrame × SortCall :=
  (df, sortCallArgs arg)

/-- `join` as a wrapper method call: receiver state and produced result. -/
def ts_joinCall (l r : DFrame) (options : JoinOptions) :
    DFrame × Except JoinError JoinOut :=
  (l, ts_join l r options)

/-! ## Example frames used by concrete counterexamples and witnesses -/

/-- The spec's scenario frame restricted to two columns:
`{foo: [1, 2, 3], ham: ["a", "b", "c"]}`. -/
def exFoo : DFrame :=
  ⟨[⟨"foo", .int64, [.vInt 1, .vInt 2, .vInt 3]⟩,
    ⟨"ham", .utf8, [.vStr "a", .vStr "b", .vStr "c"]⟩]⟩

/-- A one-column, one-row frame `{a: [1]}`. -/
def exLeft : DFrame := ⟨[⟨"a", .int64, [.vInt 1]⟩]⟩

/-- A one-column, one-row frame `{b: [2]}`. -/
def exRight : DFrame := ⟨[⟨"b", .int64, [.vInt 2]⟩]⟩

/-- A height-2 frame whose first column is named `"0"`, a numeric string. -/
def exZero : DFrame :=
  ⟨[⟨"0", .int64, [.vInt 7, .vInt 8]⟩,
    ⟨"x", .int64, [.vInt 9, .vInt 10]⟩]⟩

/-- A height-2 single-column frame `{a: [1, 2]}`. -/
def exTwo : DFrame := ⟨[⟨"a", .int64, [.vInt 1, .vInt 2]⟩]⟩

/-- A frame whose second column is named `"0"`, an array-index string:
`{x: [1], 0: [2]}`. -/
def exNum : DFrame :=
  ⟨[⟨"x", .int64, [.vInt 1]⟩, ⟨"0", .int64, [.vInt 2]⟩]⟩

/-! ## Theorems -/

/-- C9: for every DataFrame and every length, `limit(n)` returns the same
DataFrame as `head(n)`, and with no length given both default to the first 5
rows. -/
theorem limit_refines_head (df : DFrame) (n : Option Nat) :
    ts_limit df n = ts_head df n ∧
      ts_head df none = nativeHead df 5 ∧
      ts_limit df none = nativeHead df 5 :=
  ⟨rfl, rfl, rfl⟩

/-- C6 counterexample: the zero-argument `sample()` call does not fail — it
resolves to a native `sampleN` call with `n = 1` — refuting the claim that
every call supplying neither `n` nor `frac` fails with `InvalidArgument`. -/
theorem sample_noargs_counterexample :
    ts_sample SampleArgs.noArgs = Except.ok (SampleCall.sampleN 1 false none) ∧
      ts_sample SampleArgs.noArgs ≠
        Except.error ("must specify either " ++ "frac or n") :=
  ⟨rfl, by simp [ts_sample]⟩

/-- C6 (amended): a `sample` call that passes arguments supplying neither an
`n` row count nor a `frac` fraction fails with the `InvalidArgument`
`TypeError` and produces no sampled frame; only the zero-argument call is
exempt, defaulting to a single-row `sampleN`. -/
theorem sample_without_n_or_frac_fails (opts : Option SampleOpt) (frac : Option ℚ)
    (wr : Bool) (seed : Option Int)
    (hnum : ∀ n, opts ≠ some (.num n))
    (hobj : ∀ n f w s, opts = some (.obj n f w s) → n = none ∧ f = none)
    (hfrac : frac = none) :
    ts_sample (.withArgs opts frac wr seed) =
      .error ("must specify either " ++ "frac or n") := by
  subst hfrac
  match opts, hnum, hobj with
  | none, _, _ => rfl
  | some (.num n), hnum, _ => exact absurd rfl (hnum n)
  | some (.obj n f w s), _, hobj =>
      obtain ⟨hn, hf⟩ := hobj n f w s rfl
      subst hn; subst hf; rfl

/-- C6 witness: the amended theorem applied to `sample({})`-style arguments. -/
theorem sample_without_n_or_frac_fails_witness :
    ts_sample (.withArgs (some (.obj none none none none)) none false none) =
      .error ("must specify either " ++ "frac or n") :=
  sample_without_n_or_frac_fails (some (.obj none none none none)) none false none
    (fun n h => by cases h) (fun n f w s h => by cases h; exact ⟨rfl, rfl⟩) rfl

/-- C7 counterexample: a `columnNames` sequence shorter than the transposed
height is passed through unpadded — `transpose` on a height-2 frame with one
supplied name hands the native call one name, not two — refuting the claim
that missing names are filled in. -/
theorem transpose_no_padding_counterexample :
    (ts_transpose exTwo (some { columnNames := some (.arr ["x"]) })).columnNames
      = some ["x"] ∧
    ((ts_transpose exTwo
        (some { columnNames := some (.arr ["x"]) })).columnNames.getD []).length
      ≠ exTwo.getHeight :=
  ⟨rfl, by decide⟩

/-- C7 (amended): a supplied `columnNames` sequence — array or generator — is
truncated to the transposed height (names beyond the height are ignored), but
a shorter sequence is not padded: the native call receives exactly
`take height names`. -/
theorem transpose_names_truncated (df : DFrame) (opts : TransposeOptions)
    (l : List String)
    (h : opts.columnNames = some (.arr l) ∨ opts.columnNames = some (.gen l)) :
    (ts_transpose df (some opts)).columnNames = some (l.take df.getHeight) := by
  rcases h with h | h <;>
    simp only [ts_transpose, Option.some_bind, h, takeNItems]

/-- C7 witness: the amended theorem at a concrete over-long array of names. -/
theorem transpose_names_truncated_witness :
    (ts_transpose exTwo
        (some { columnNames := some (.arr ["x", "y", "z"]) })).columnNames
      = some (["x", "y", "z"].take exTwo.getHeight) :=
  transpose_names_truncated exTwo { columnNames := some (.arr ["x", "y", "z"]) }
    ["x", "y", "z"] (Or.inl rfl)

/-- C5: each of the eight known aggregate names resolves to its aggregation
and a truly unknown name raises the explicit unknown-aggregate error — but
the failing input `"toString"` (any `Object.prototype` member name) slips
past the `?? new Error(...)` guard and is passed through to the native call
with no error, because the JS bracket lookup finds the inherited member. -/
theorem pivot_aggregate_resolution (df : DFrame) (v i c : List String) :
    ((ts_pivot df v i c (some (.str "first"))).2 = .ok ⟨v, i, c, .agg .first⟩ ∧
     (ts_pivot df v i c (some (.str "sum"))).2 = .ok ⟨v, i, c, .agg .sum⟩ ∧
     (ts_pivot df v i c (some (.str "max"))).2 = .ok ⟨v, i, c, .agg .max⟩ ∧
     (ts_pivot df v i c (some (.str "min"))).2 = .ok ⟨v, i, c, .agg .min⟩ ∧
     (ts_pivot df v i c (some (.str "mean"))).2 = .ok ⟨v, i, c, .agg .mean⟩ ∧
     (ts_pivot df v i c (some (.str "median"))).2 = .ok ⟨v, i, c, .agg .median⟩ ∧
     (ts_pivot df v i c (some (.str "last"))).2 = .ok ⟨v, i, c, .agg .last⟩ ∧
     (ts_pivot df v i c (some (.str "count"))).2 = .ok ⟨v, i, c, .agg .count⟩) ∧
    (∀ s, s ∉ ["first", "sum", "max", "min", "mean", "median", "last", "count"] →
      s ∉ objectPrototypeKeys →
      (ts_pivot df v i c (some (.str s))).2 =
        .error ("Unknown aggregate function " ++ s)) ∧
    (ts_pivot df v i c (some (.str "toString"))).2 =
      .ok ⟨v, i, c, .protoPassthrough "toString"⟩ := by
  refine ⟨⟨rfl, rfl, rfl, rfl, rfl, rfl, rfl, rfl⟩, ?_, rfl⟩
  intro s hmem hproto
  have h1 : ¬ s = "first" := fun e => hmem (by simp [e])
  have h2 : ¬ s = "sum" := fun e => hmem (by simp [e])
  have h3 : ¬ s = "max" := fun e => hmem (by simp [e])
  have h4 : ¬ s = "min" := fun e => hmem (by simp [e])
  have h5 : ¬ s = "mean" := fun e => hmem (by simp [e])
  have h6 : ¬ s = "median" := fun e => hmem (by simp [e])
  have h7 : ¬ s = "last" := fun e => hmem (by simp [e])
  have h8 : ¬ s = "count" := fun e => hmem (by simp [e])
  simp [ts_pivot, resolveAggregate, aggTableLookup,
    h1, h2, h3, h4, h5, h6, h7, h8, hproto]

/-- C5 witness: the resolution theorem at concrete arguments, with the
unknown-name branch discharged at `"bogus"`. -/
theorem pivot_aggregate_resolution_witness :
    "bogus" ∉ ["first", "sum", "max", "min", "mean", "median", "last", "count"] ∧
    "bogus" ∉ objectPrototypeKeys ∧
    (ts_pivot exFoo ["foo"] ["ham"] ["ham"] (some (.str "bogus"))).2 =
      .error ("Unknown aggregate function " ++ "bogus") :=
  ⟨by decide, by decide,
    (pivot_aggregate_resolution exFoo ["foo"] ["ham"] ["ham"]).2.1 "bogus"
      (by decide) (by decide)⟩

/-- C1 counterexample: a cross join supplying neither `on` nor
`leftOn`/`rightOn` succeeds with the Cartesian product instead of failing
with `MissingJoinKey`, refuting the claim for `how = "cross"`. -/
theorem join_cross_counterexample :
    ts_join exLeft exRight { how := some "cross" } =
      .ok (.cross [(0, 0)]) ∧
    ts_join exLeft exRight { how := some "cross" } ≠
      .error .missingJoinKey :=
  ⟨rfl, fun h => Except.noConfusion h⟩

/-- C1 (amended): for every pair of DataFrames, a non-cross join (`how`
defaulting to `"inner"`) that supplies neither `on` nor both
`leftOn`/`rightOn` fails with `MissingJoinKey`, and one that supplies
`leftOn`/`rightOn` of different arity fails with `KeyCountMismatch` — in both
cases no result is produced; a cross join ignores join keys entirely. -/
theorem join_key_validation (l r : DFrame) (opts : JoinOptions)
    (hcross : opts.how.getD "inner" ≠ "cross") :
    (opts.«on» = none → (opts.leftOn = none ∨ opts.rightOn = none) →
      ts_join l r opts = .error .missingJoinKey) ∧
    (∀ lo ro, opts.«on» = none → opts.leftOn = some lo → opts.rightOn = some ro →
      lo.length ≠ ro.length → ts_join l r opts = .error .keyCountMismatch) := by
  constructor
  · intro hon hlr
    rcases hlr with hl | hr
    · cases hro : opts.rightOn with
      | none => simp [ts_join, columnOrColumnsM, nativeJoin, hcross, hon, hl, hro]
      | some ro => simp [ts_join, columnOrColumnsM, nativeJoin, hcross, hon, hl, hro]
    · cases hlo : opts.leftOn with
      | none => simp [ts_join, columnOrColumnsM, nativeJoin, hcross, hon, hr, hlo]
      | some lo => simp [ts_join, columnOrColumnsM, nativeJoin, hcross, hon, hr, hlo]
  · intro lo ro hon hlo hro hlen
    simp [ts_join, columnOrColumnsM, nativeJoin, hcross, hon, hlo, hro, hlen]

/-- C1 witness: the amended theorem at concrete inputs — only `leftOn`
supplied gives `MissingJoinKey`; `leftOn`/`rightOn` of arity 1 and 2 give
`KeyCountMismatch`. -/
theorem join_key_validation_witness :
    ts_join exLeft exRight { leftOn := some ["a"] } = .error .missingJoinKey ∧
    ts_join exLeft exRight { leftOn := some ["a"], rightOn := some ["b", "c"] } =
      .error .keyCountMismatch :=
  ⟨(join_key_validation exLeft exRight { leftOn := some ["a"] }
      (by decide)).1 rfl (Or.inr rfl),
   (join_key_validation exLeft exRight
      { leftOn := some ["a"], rightOn := some ["b", "c"] }
      (by decide)).2 ["a"] ["b", "c"] rfl rfl rfl (by decide)⟩

/-- C10 counterexample: on a frame with a column literally named `"0"`, the
property `"0"` parses as the number 0 yet reading it yields the column, not
`row(0)` — the column-name branch of the Proxy `get` trap wins, refuting the
claim's universal row-access clause. -/
theorem proxy_numeric_name_counterexample :
    jsNumber "0" = some 0 ∧
    proxyGet exZero (.str "0") = .column (ts_getColumn exZero "0") ∧
    proxyGet exZero (.str "0") ≠ .row (nativeToRow exZero 0) := by
  refine ⟨by decide, rfl, ?_⟩
  intro h
  rw [show proxyGet exZero (.str "0") = .column (ts_getColumn exZero "0") from rfl]
    at h
  exact GetResult.noConfusion h

/-- C10 (amended): reading a string property that is a column name yields
that column (as `getColumn` does); reading a property that is **not** a
column name and parses as a number yields that row; enumerating the own keys
yields exactly the column names. -/
theorem proxy_access (df : DFrame) (s : String) (n : Int) :
    (s ∈ df.names → proxyGet df (.str s) = .column (ts_getColumn df s)) ∧
    (s ∉ df.names → jsNumber s = some n →
      proxyGet df (.str s) = .row (nativeToRow df n)) ∧
    proxyOwnKeys df = df.names := by
  refine ⟨?_, ?_, rfl⟩
  · intro h
    simp [proxyGet, h]
  · intro h hn
    simp [proxyGet, h, hn]

/-- C10 witness: the amended theorem applied on `exZero` — the column name
`"x"` yields the column, and the non-column numeric property `"1"` yields
row 1. -/
theorem proxy_access_witness :
    proxyGet exZero (.str "x") = .column (ts_getColumn exZero "x") ∧
    proxyGet exZero (.str "1") = .row (nativeToRow exZero 1) ∧
    proxyOwnKeys exZero = exZero.names :=
  ⟨(proxy_access exZero "x" 0).1 (by decide),
   (proxy_access exZero "1" 1).2.1 (by decide) (by decide),
   (proxy_access exZero "x" 0).2.2⟩

/-- C2 counterexample: `rename` and `drop` are not in-place mutators — on
concrete frames the receiver keeps its old columns while the renamed/dropped
frame is returned as a new value — refuting the claim's in-place clause. -/
theorem rename_drop_not_in_place_counterexample :
    (ts_rename exLeft [("a", "b")]).1 = exLeft ∧
    ((ts_rename exLeft [("a", "b")]).1).names = ["a"] ∧
    ((ts_rename exLeft [("a", "b")]).2).names = ["b"] ∧
    (ts_drop exFoo [Sum.inl "foo"]).1 = exFoo ∧
    ((ts_drop exFoo [Sum.inl "foo"]).1).names = ["foo", "ham"] ∧
    ((ts_drop exFoo [Sum.inl "foo"]).2).names = ["ham"] := by
  refine ⟨rfl, by decide, by decide, rfl, by decide, by decide⟩

/-- C2 (amended): `rename` and `drop` return new DataFrames and leave the
receiver untouched (the in-place column-level mutators are `insertAtIdx` and
`replaceAtIdx`, which do change the receiver), and every row-transforming
operation (filter, sort, join, groupby, pivot) returns a new value and leaves
the receiver's columns, names and height unchanged. -/
theorem frame_mutation_policy (df other : DFrame) (mapping : List (String × String))
    (args : List (String ⊕ List String)) (pred : DFrame → List Bool)
    (sarg : SortArg) (jopts : JoinOptions) (by_ v i c : List String)
    (agg : Option AggSpec) (idx : Nat) (s : SeriesM) :
    (ts_rename df mapping).1 = df ∧
    (ts_drop df args).1 = df ∧
    (ts_filter df pred).1 = df ∧
    (ts_sortCall df sarg).1 = df ∧
    (ts_joinCall df other jopts).1 = df ∧
    (ts_groupBy df by_).1 = df ∧
    (ts_pivot df v i c agg).1 = df ∧
    (ts_insertAtIdx df idx s).1 = nativeInsertAtIdx df idx s ∧
    (ts_replaceAtIdx df idx s).1 = nativeReplaceAtIdx df idx s := by
  refine ⟨?_, ?_, rfl, rfl, rfl, rfl, rfl, rfl, rfl⟩
  · rfl
  · unfold ts_drop
    match args with
    | [] => rfl
    | [Sum.inl _] => rfl
    | [Sum.inr _] => rfl
    | Sum.inl _ :: _ :: _ => rfl
    | Sum.inr _ :: _ :: _ => rfl

/-- Helper: on an accumulator whose keys avoid all incoming column names, the
schema fold appends one `(name, dtype)` pair per column, in column order. -/
theorem foldl_objInsert (cols : List SeriesM) :
    ∀ acc : List (String × DType),
      (cols.map (fun c => c.name)).Nodup →
      (∀ c ∈ cols, ∀ p ∈ acc, p.1 ≠ c.name) →
      cols.foldl (fun a s => objInsert a s.name s.dtype) acc =
        acc ++ cols.map (fun c => (c.name, c.dtype)) := by
  induction cols with
  | nil => intro acc _ _; simp
  | cons c cs ih =>
      intro acc hnd hdisj
      have hsplit : (∀ x ∈ cs, ¬ x.name = c.name) ∧
          (cs.map (fun c => c.name)).Nodup := by simpa using hnd
      obtain ⟨hhead, htail⟩ := hsplit
      have hany : acc.any (fun p => p.1 = c.name) = false := by
        simp only [List.any_eq_false, decide_eq_true_eq]
        intro p hp
        exact hdisj c (by simp) p hp
      have step : objInsert acc c.name c.dtype = acc ++ [(c.name, c.dtype)] := by
        unfold objInsert
        rw [hany]
        simp
      rw [List.foldl_cons, step, ih (acc ++ [(c.name, c.dtype)]) htail]
      · simp
      · intro c' hc' p hp
        rcases List.mem_append.mp hp with hp | hp
        · exact hdisj c' (by simp [hc']) p hp
        · have hp' : p = (c.name, c.dtype) := by simpa using hp
          subst hp'
          intro he
          exact hhead c' hc' he.symm

/-- Helper: when no key is an array index, JS enumeration is pure insertion
order. -/
theorem jsObjEnum_of_no_index (props : List (String × DType))
    (h : ∀ p ∈ props, isArrayIndex p.1 = false) : jsObjEnum props = props := by
  have h1 : props.filter (fun p => isArrayIndex p.1) = [] := by
    rw [List.filter_eq_nil_iff]
    intro a ha
    simp [h a ha]
  have h2 : props.filter (fun p => !(isArrayIndex p.1)) = props := by
    rw [List.filter_eq_self]
    intro a ha
    simp [h a ha]
  unfold jsObjEnum
  rw [h1, h2]
  rfl

/-- C4 counterexample: on a frame whose second column is named `"0"`, JS
enumerates the array-index key `"0"` before the insertion-ordered key `"x"`,
so the schema's keys are not the column names in column order, refuting the
claim's key-order clause. -/
theorem schema_numeric_key_order_counterexample :
    schemaOf exNum = [("0", DType.int64), ("x", DType.int64)] ∧
    exNum.columns.map (fun c => (c.name, c.dtype)) =
      [("x", DType.int64), ("0", DType.int64)] ∧
    schemaOf exNum ≠ exNum.columns.map (fun c => (c.name, c.dtype)) :=
  ⟨by decide, by decide, by decide⟩

/-- C4 (amended): the `schema` getter is a pure derived view recomputed from
the current column list on each access — for any frame with pairwise-distinct
column names none of which is an integer-like string, its entries are exactly
`(name, dtype)` in column order and its keys are exactly the column names
(integer-like column names are instead enumerated first, in ascending numeric
order, per JS object key ordering) — and the same holds of the receiver
immediately after the in-place mutations `insertAtIdx` and `replaceAtIdx`. -/
theorem schema_pure_derived_view (df : DFrame) (idx : Nat) (s : SeriesM)
    (h : df.names.Nodup)
    (hni : ∀ n ∈ df.names, isArrayIndex n = false)
    (hins : ((ts_insertAtIdx df idx s).1).names.Nodup)
    (hinsni : ∀ n ∈ ((ts_insertAtIdx df idx s).1).names, isArrayIndex n = false)
    (hrep : ((ts_replaceAtIdx df idx s).1).names.Nodup)
    (hrepni : ∀ n ∈ ((ts_replaceAtIdx df idx s).1).names, isArrayIndex n = false) :
    schemaOf df = df.columns.map (fun c => (c.name, c.dtype)) ∧
    (schemaOf df).map Prod.fst = df.names ∧
    schemaOf (ts_insertAtIdx df idx s).1 =
      ((ts_insertAtIdx df idx s).1).columns.map (fun c => (c.name, c.dtype)) ∧
    schemaOf (ts_replaceAtIdx df idx s).1 =
      ((ts_replaceAtIdx df idx s).1).columns.map (fun c => (c.name, c.dtype)) := by
  have main : ∀ d : DFrame, d.names.Nodup →
      (∀ n ∈ d.names, isArrayIndex n = false) →
      schemaOf d = d.columns.map (fun c => (c.name, c.dtype)) := by
    intro d hd hdni
    have hstore : schemaStore d = d.columns.map (fun c => (c.name, c.dtype)) := by
      have := foldl_objInsert d.columns [] (by simpa [DFrame.names] using hd)
        (fun c _ p hp => absurd hp (List.not_mem_nil p))
      simpa [schemaStore] using this
    have henum : jsObjEnum (schemaStore d) = schemaStore d := by
      apply jsObjEnum_of_no_index
      intro p hp
      rw [hstore] at hp
      rcases List.mem_map.mp hp with ⟨c, hc, rfl⟩
      exact hdni c.name (List.mem_map_of_mem _ hc)
    rw [schemaOf, henum, hstore]
  refine ⟨main df h hni, ?_, main _ hins hinsni, main _ hrep hrepni⟩
  rw [main df h hni]
  simp [DFrame.names, List.map_map]

/-- C4 witness: the amended schema theorem on the scenario frame (no
integer-like column names) with a boolean column inserted at index 1. -/
theorem schema_pure_derived_view_witness :
    schemaOf exFoo = [("foo", .int64), ("ham", .utf8)] ∧
    schemaOf (ts_insertAtIdx exFoo 1 ⟨"w", .boolean, []⟩).1 =
      [("foo", .int64), ("w", .boolean), ("ham", .utf8)] := by
  have h := schema_pure_derived_view exFoo 1 ⟨"w", .boolean, []⟩
    (by decide) (by decide) (by decide) (by decide) (by decide) (by decide)
  exact ⟨by rw [h.1]; rfl, by rw [h.2.2.1]; rfl⟩

/-- Helper: the stable engine output is a permutation of `range n` sorted
under `sortRel`, so two in-range indices with equal keys keep their original
relative order. -/
theorem stableSortIdx_stable (key : Nat → Int) (d : Bool) (n i j : Nat)
    (hij : i < j) (hjn : j < n) (hkey : key i = key j) :
    (stableSortIdx key d n).indexOf i < (stableSortIdx key d n).indexOf j := by
  have hperm : List.Perm (stableSortIdx key d n) (List.range n) :=
    List.perm_insertionSort _ _
  have hsorted : (stableSortIdx key d n).Pairwise (sortRel key d) :=
    List.sorted_insertionSort _ _
  set l := stableSortIdx key d n with hl
  have hmi : i ∈ l := hperm.mem_iff.mpr (List.mem_range.mpr (Nat.lt_trans hij hjn))
  have hmj : j ∈ l := hperm.mem_iff.mpr (List.mem_range.mpr hjn)
  have hi : l.indexOf i < l.length := List.indexOf_lt_length.mpr hmi
  have hj : l.indexOf j < l.length := List.indexOf_lt_length.mpr hmj
  have hgi : l[l.indexOf i] = i := List.getElem_indexOf hi
  have hgj : l[l.indexOf j] = j := List.getElem_indexOf hj
  rcases Nat.lt_trichotomy (l.indexOf i) (l.indexOf j) with h | h | h
  · exact h
  · exfalso
    have h1 : l[List.indexOf i l]? = some i := by
      rw [List.getElem?_eq_getElem hi, hgi]
    have h2 : l[List.indexOf j l]? = some j := by
      rw [List.getElem?_eq_getElem hj, hgj]
    rw [h, h2] at h1
    have : i = j := (Option.some.injEq _ _ ▸ h1).symm
    omega
  · exfalso
    have hrel : sortRel key d (l[l.indexOf j]) (l[l.indexOf i]) :=
      (List.pairwise_iff_getElem.mp hsorted) _ _ hj hi h
    rw [hgi, hgj] at hrel
    rcases hrel with hlt | ⟨heq, hle⟩
    · cases d <;> simp only [if_pos, if_neg, Bool.false_eq_true, ite_true,
        ite_false] at hlt <;> omega
    · omega

/-- C3: the positional convention forwards `maintain_order` to the engine,
and the stable engine keeps equal-key rows in their original relative order
for every key function and both directions — but the options-object
convention `sort({by, descending, maintain_order})` recurses as
`this.sort(arg.by, arg.descending)`, dropping `maintain_order`, so the
engine receives `maintain_order = false` even when stability was
requested. -/
theorem sort_stability_and_dropped_flag (key : Nat → Int) (d : Bool)
    (n i j : Nat) (hij : i < j) (hjn : j < n) (hkey : key i = key j) :
    (∀ by_ desc, sortCallArgs (.str by_ desc true) = .native by_ desc true true) ∧
    (stableSortIdx key d n).indexOf i < (stableSortIdx key d n).indexOf j ∧
    sortCallArgs (.opts "a" (some false) (some true)) =
      .native "a" false true false := by
  refine ⟨?_, stableSortIdx_stable key d n i j hij hjn hkey, ?_⟩
  · intro by_ desc
    simp [sortCallArgs]
  · simp [sortCallArgs]

/-- C3 witness: the theorem applied to the constant key on two rows — the
stable engine keeps row 0 before row 1. -/
theorem sort_stability_and_dropped_flag_witness :
    0 < 1 ∧ 1 < 2 ∧
    (stableSortIdx (fun _ => (0 : Int)) false 2).indexOf 0 <
      (stableSortIdx (fun _ => (0 : Int)) false 2).indexOf 1 :=
  ⟨Nat.zero_lt_one, by omega,
    (sort_stability_and_dropped_flag (fun _ => (0 : Int)) false 2 0 1
      (by omega) (by omega) rfl).2.1⟩

/-- Helper: deduplication only keeps rows of the input. -/
theorem mem_of_mem_dedupFirstAux {α κ : Type} [DecidableEq κ] (f : α → κ) :
    ∀ (l : List α) (seen : List κ) (x : α), x ∈ dedupFirstAux f l seen → x ∈ l := by
  intro l
  induction l with
  | nil => intro seen x h; simp [dedupFirstAux] at h
  | cons a as ih =>
      intro seen x h
      simp only [dedupFirstAux] at h
      by_cases hc : f a ∈ seen
      · rw [if_pos hc] at h
        exact List.mem_cons_of_mem a (ih seen x h)
      · rw [if_neg hc] at h
        rcases List.mem_cons.mp h with h | h
        · exact h ▸ List.mem_cons_self a as
        · exact List.mem_cons_of_mem a (ih _ x h)

/-- Helper: a surviving row's key was not among the already-seen keys. -/
theorem key_not_seen_of_mem_dedupFirstAux {α κ : Type} [DecidableEq κ] (f : α → κ) :
    ∀ (l : List α) (seen : List κ) (x : α), x ∈ dedupFirstAux f l seen → f x ∉ seen := by
  intro l
  induction l with
  | nil => intro seen x h; simp [dedupFirstAux] at h
  | cons a as ih =>
      intro seen x h
      simp only [dedupFirstAux] at h
      by_cases hc : f a ∈ seen
      · rw [if_pos hc] at h
        exact ih seen x h
      · rw [if_neg hc] at h
        rcases List.mem_cons.mp h with h | h
        · exact h ▸ hc
        · intro hx
          exact ih _ x h (List.mem_cons_of_mem _ hx)

/-- Helper: the surviving rows have pairwise-distinct keys. -/
theorem nodup_keys_dedupFirstAux {α κ : Type} [DecidableEq κ] (f : α → κ) :
    ∀ (l : List α) (seen : List κ), ((dedupFirstAux f l seen).map f).Nodup := by
  intro l
  induction l with
  | nil => intro seen; simp [dedupFirstAux]
  | cons a as ih =>
      intro seen
      simp only [dedupFirstAux]
      by_cases hc : f a ∈ seen
      · rw [if_pos hc]; exact ih seen
      · rw [if_neg hc]
        simp only [List.map_cons, List.nodup_cons]
        refine ⟨?_, ih _⟩
        intro hmem
        rcases List.mem_map.mp hmem with ⟨y, hy, hfy⟩
        exact key_not_seen_of_mem_dedupFirstAux f as (f a :: seen) y hy
          (by rw [hfy]; exact List.mem_cons_self _ _)

/-- Helper: on a key-distinct list with unseen keys, deduplication is the
identity. -/
theorem dedupFirstAux_eq_self {α κ : Type} [DecidableEq κ] (f : α → κ) :
    ∀ (l : List α) (seen : List κ), (l.map f).Nodup →
      (∀ x ∈ l, f x ∉ seen) → dedupFirstAux f l seen = l := by
  intro l
  induction l with
  | nil => intro seen _ _; rfl
  | cons a as ih =>
      intro seen hnd hout
      rw [List.map_cons] at hnd
      obtain ⟨h1, h2⟩ := List.nodup_cons.mp hnd
      have hmem : f a ∉ seen := hout a (List.mem_cons_self a as)
      simp only [dedupFirstAux, if_neg hmem]
      congr 1
      apply ih (f a :: seen) h2
      intro x hx hin
      rcases List.mem_cons.mp hin with h | h
      · exact h1 (h ▸ List.mem_map_of_mem f hx)
      · exact hout x (List.mem_cons_of_mem a hx) h

/-- Helper: every row of `rowsOf` spans the full width. -/
theorem length_mem_rowsOf (df : DFrame) (r : List JsVal) (h : r ∈ rowsOf df) :
    r.length = df.width := by
  rcases List.mem_map.mp h with ⟨i, _, rfl⟩
  simp [DFrame.width]

/-- Helper: entry `i` of column `j` of a row list is entry `j` of row `i`. -/
theorem colOfRows_getD (rs : List (List JsVal)) (j i : Nat) :
    (colOfRows rs j).getD i .vNull = (rs.getD i []).getD j .vNull := by
  simp only [colOfRows, List.getD_eq_getElem?_getD, List.getElem?_map]
  cases h : rs[i]? <;> simp

/-- Helper: reading row `i` back out of the rebuilt columns gives the entries
of row `i`, shifted by the starting column index. -/
theorem rebuildAux_row (rs : List (List JsVal)) (i : Nat) :
    ∀ (cs : List SeriesM) (j : Nat),
      (rebuildAux rs cs j).map (fun c => c.values.getD i .vNull) =
        (List.range cs.length).map (fun k => (rs.getD i []).getD (j + k) .vNull) := by
  intro cs
  induction cs with
  | nil => intro j; rfl
  | cons c cs ih =>
      intro j
      simp only [rebuildAux, List.map_cons, List.length_cons,
        List.range_succ_eq_map, List.map_map]
      refine congrArg₂ List.cons ?_ ?_
      · rw [colOfRows_getD]
        simp
      · rw [ih (j + 1)]
        apply List.map_congr_left
        intro k _
        simp only [Function.comp]
        congr 1
        omega

/-- Helper: a row read back entry by entry over its own length is itself. -/
theorem map_range_getD (r : List JsVal) :
    (List.range r.length).map (fun k => r.getD k .vNull) = r := by
  induction r with
  | nil => rfl
  | cons a r ih =>
      simp only [List.length_cons, List.range_succ_eq_map, List.map_cons,
        List.map_map]
      refine congrArg₂ List.cons rfl ?_
      have hfn : ∀ k ∈ List.range r.length,
          ((fun k => (a :: r).getD k JsVal.vNull) ∘ Nat.succ) k =
            (fun k => r.getD k JsVal.vNull) k := by
        intro k _
        simp [List.getD_cons_succ]
      exact (List.map_congr_left hfn).trans ih

/-- Helper: the rebuilt frame has the original column names. -/
theorem rebuild_names (df : DFrame) (rs : List (List JsVal)) :
    (rebuild df rs).names = df.names := by
  simp only [rebuild, DFrame.names]
  suffices h : ∀ (cs : List SeriesM) (j : Nat),
      (rebuildAux rs cs j).map (·.name) = cs.map (·.name) from h _ 0
  intro cs
  induction cs with
  | nil => intro j; rfl
  | cons c cs ih => intro j; simp only [rebuildAux, List.map_cons, ih]

/-- Helper: the rebuilt frame has the original width. -/
theorem rebuild_width (df : DFrame) (rs : List (List JsVal)) :
    (rebuild df rs).width = df.width := by
  simp only [rebuild, DFrame.width]
  suffices h : ∀ (cs : List SeriesM) (j : Nat),
      (rebuildAux rs cs j).length = cs.length from h _ 0
  intro cs
  induction cs with
  | nil => intro j; rfl
  | cons c cs ih => intro j; simp only [rebuildAux, List.length_cons, ih]

/-- Helper: the subset key indices are unchanged by a rebuild. -/
theorem colIdxs_rebuild (df : DFrame) (rs : List (List JsVal))
    (subset : Option (List String)) :
    colIdxs (rebuild df rs) subset = colIdxs df subset := by
  cases subset <;> simp [colIdxs, rebuild_names, rebuild_width]

/-- Helper: rebuilding twice is rebuilding once with the later rows. -/
theorem rebuild_rebuild (df : DFrame) (rs rs' : List (List JsVal)) :
    rebuild (rebuild df rs) rs' = rebuild df rs' := by
  simp only [rebuild]
  congr 1
  suffices h : ∀ (cs : List SeriesM) (j : Nat),
      rebuildAux rs' (rebuildAux rs cs j) j = rebuildAux rs' cs j from h _ 0
  intro cs
  induction cs with
  | nil => intro j; rfl
  | cons c cs ih => intro j; simp only [rebuildAux, ih]

/-- Helper: reading the rows back out of a rebuilt frame returns exactly the
rows it was built from, provided each row spans the width (and no rows were
given for a column-less frame). -/
theorem rowsOf_rebuild (df : DFrame) (rs : List (List JsVal))
    (hw : ∀ r ∈ rs, r.length = df.width)
    (hnil : df.columns = [] → rs = []) :
    rowsOf (rebuild df rs) = rs := by
  rcases hcols : df.columns with _ | ⟨c, cs⟩
  · have hrs : rs = [] := hnil hcols
    subst hrs
    simp [rowsOf, rebuild, hcols, rebuildAux, DFrame.getHeight]
  · have hh : (rebuild df rs).getHeight = rs.length := by
      simp [rebuild, hcols, rebuildAux, DFrame.getHeight, colOfRows]
    apply List.ext_getElem
    · simp [rowsOf, hh]
    · intro i hi hi'
      have hi2 : i < rs.length := hi'
      simp only [rowsOf, List.getElem_map, List.getElem_range]
      show (rebuild df rs).columns.map (fun c => c.values.getD i .vNull) = rs[i]
      have hlen : rs[i].length = df.width := hw rs[i] (List.getElem_mem hi2)
      calc (rebuild df rs).columns.map (fun c => c.values.getD i .vNull)
          = (List.range df.columns.length).map
              (fun k => (rs.getD i []).getD (0 + k) .vNull) := by
            simp only [rebuild]
            exact rebuildAux_row rs i df.columns 0
        _ = (List.range rs[i].length).map (fun k => rs[i].getD k .vNull) := by
            rw [List.getD_eq_getElem?_getD, List.getElem?_eq_getElem hi2]
            simp only [Option.getD_some]
            rw [hlen]
            simp [DFrame.width]
        _ = rs[i] := map_range_getD rs[i]

/-- C8: applying `unique` with `keep = "first"` twice yields the same
DataFrame as applying it once, for every frame and every optional subset of
key columns — the composition is idempotent. -/
theorem unique_first_idempotent (df : DFrame) (subset : Option (List String)) :
    ts_unique (ts_unique df subset) subset = ts_unique df subset := by
  unfold ts_unique nativeUnique
  have hw : ∀ r ∈ dedupFirst (projRow (colIdxs df subset)) (rowsOf df),
      r.length = df.width := by
    intro r hr
    exact length_mem_rowsOf df r
      (mem_of_mem_dedupFirstAux _ (rowsOf df) [] r hr)
  have hnil : df.columns = [] →
      dedupFirst (projRow (colIdxs df subset)) (rowsOf df) = [] := by
    intro h
    have hempty : rowsOf df = [] := by
      simp [rowsOf, DFrame.getHeight, h]
    rw [dedupFirst, hempty]
    rfl
  rw [colIdxs_rebuild, rowsOf_rebuild df _ hw hnil]
  rw [show dedupFirst (projRow (colIdxs df subset))
        (dedupFirst (projRow (colIdxs df subset)) (rowsOf df)) =
      dedupFirst (projRow (colIdxs df subset)) (rowsOf df) from
    dedupFirstAux_eq_self _ _ []
      (nodup_keys_dedupFirstAux _ (rowsOf df) [])
      (fun x _ => List.not_mem_nil _)]
  exact rebuild_rebuild df _ _
